import Mathlib

/-!
Formal model of the TalentSonar recruiting assistant core.

The definitions below are a shallow embedding of the Python source:

* `src/talentsonar/src/candidate_tests.py` — the assessment-session engine
  (`CandidateTestSystem`): question bank, answer submission, integrity flags,
  and final scoring with time and cheating penalties.
* `src/hf_space/modules/github_discovery.py` — paginated user search,
  candidate scoring (`score_user`), skill normalization
  (`map_technical_to_languages`) and ranking (`discover_candidates_for_job`).
* `src/hf_space/modules/smart_recruiter.py` — the lightweight match engine
  (`_mock_score`).

Modelling conventions: Python floats are modelled as exact rationals (`ℚ`)
where the computation is rational, and as real numbers (`ℝ`) where it uses
`math.log`; `round(x, n)` is modelled exactly as round-half-to-even on the
ideal value; datetimes are modelled as rational second counts (and integer
day counts for repository-recency checks); dictionaries are modelled as
association lists with the insertion-order semantics of Python dicts; the
remote HTTP API is modelled as a function from the request index to the
response, and the `while` loop of the search is given an explicit fuel
parameter so that non-termination is observable.  Presentation-only fields
(log messages, strengths/weaknesses texts, reason strings) are omitted.
-/

/-! ## Python-style rounding (round-half-to-even, as `round(x, ndigits)`) -/

/-- Round to the nearest integer, ties to the even neighbour — the rounding
mode of Python's builtin `round` applied to the ideal (error-free) value. -/
def pyRoundInt {α : Type} [LinearOrderedField α] [FloorRing α] (x : α) : ℤ :=
  if x - (⌊x⌋ : α) < 1 / 2 then ⌊x⌋
  else if (1 : α) / 2 < x - (⌊x⌋ : α) then ⌊x⌋ + 1
  else if Even ⌊x⌋ then ⌊x⌋ else ⌊x⌋ + 1

/-- Python `round(x, 2)` on an exact rational value. -/
def pyRound2 (x : ℚ) : ℚ := (pyRoundInt (x * 100) : ℚ) / 100

/-- Python `round(x, 1)` on a real value. -/
noncomputable def pyRound1R (x : ℝ) : ℝ := (pyRoundInt (x * 10) : ℝ) / 10

/-! ## Association lists (Python `dict`, insertion ordered) -/

/-- `d.get(k)` / `k in d` lookup of a Python dict modelled as an assoc list. -/
def lookupAssoc {β : Type} : List (String × β) → String → Option β
  | [], _ => none
  | (k', v) :: rest, k => if k' = k then some v else lookupAssoc rest k

/-- `d[k] = v` on a Python dict: overwrite in place if the key is present
(keeping its position, as Python dicts do), else append. -/
def upsertAssoc {β : Type} : List (String × β) → String → β → List (String × β)
  | [], k, v => [(k, v)]
  | (k', v') :: rest, k, v =>
    if k' = k then (k, v) :: rest else (k', v') :: upsertAssoc rest k v

/-! ## String helpers mirroring the Python `str` methods used by the source -/

/-- Python `s.lower()` (ASCII case folding suffices for the source's data). -/
def strToLower (s : String) : String := String.mk (s.data.map Char.toLower)

/-- Worker for `wordsOf`: accumulates the current word in reverse. -/
def wordsGo : List Char → List Char → List String
  | [], cur => if cur.isEmpty then [] else [String.mk cur.reverse]
  | c :: cs, cur =>
    if c.isWhitespace then
      if cur.isEmpty then wordsGo cs [] else String.mk cur.reverse :: wordsGo cs []
    else wordsGo cs (c :: cur)

/-- Python `s.split()`: split on whitespace runs, dropping empty pieces. -/
def wordsOf (s : String) : List String := wordsGo s.data []

/-- Python `s.strip()`. -/
def pyStrip (s : String) : String :=
  String.mk (((s.data.dropWhile Char.isWhitespace).reverse.dropWhile Char.isWhitespace).reverse)

/-- Python `s.isdigit()` (restricted to ASCII digits, which is all the
source ever feeds it). -/
def pyIsDigit (s : String) : Bool := !s.data.isEmpty && s.data.all Char.isDigit

/-- Python `int(s)` on an all-digits string. -/
def digitsToNat (l : List Char) : Nat := l.foldl (fun n c => 10 * n + (c.toNat - 48)) 0

/-! ## Assessment sessions (`candidate_tests.py`) -/

/-- A submitted answer value: the source stores arbitrary Python values but
only ever distinguishes integers (choice indices, scale values) from strings
(free text); `str(answer)` of an integer is its decimal representation. -/
inductive AnsVal where
  | aInt : Int → AnsVal
  | aStr : String → AnsVal
deriving DecidableEq

/-- The three question shapes of the question bank. -/
inductive QKind where
  | multiple_choice (options : List String) (correct_answer : Int)
  | text_input (min_words : Nat)
  | scale (minVal maxVal : Int)
deriving DecidableEq

/-- One entry of `SOFT_SKILL_QUESTIONS` / `TECHNICAL_QUESTIONS_POOL`. -/
structure Question where
  id : String
  question : String
  kind : QKind
  weight : ℚ
deriving DecidableEq

/-- The stored value of `session['answers'][question_id]`. -/
structure AnswerData where
  answer : AnsVal
  submitted_at : ℚ
  time_taken_seconds : Option Int
deriving DecidableEq

/-- One entry of `session['cheating_flags']`. -/
structure CheatFlag where
  timestamp : ℚ
  reason : String
deriving DecidableEq

/-- `session['status']`: the source only ever stores these two strings. -/
inductive SessionStatus where
  | in_progress
  | completed
deriving DecidableEq

/-- The numeric results record built by `complete_test` (the derived
`strengths` / `weaknesses` text lists are presentation-only and omitted). -/
structure Results where
  session_id : String
  candidate_id : Int
  soft_skill_score : ℚ
  technical_score : ℚ
  overall_score : ℚ
  time_taken_minutes : ℚ
  time_penalty : ℚ
  cheating_flags : Nat
  cheating_penalty : ℚ
  completed_at : ℚ
deriving DecidableEq

/-- One value of `self.test_sessions`. -/
structure SessionState where
  session_id : String
  candidate_id : Int
  start_time : ℚ
  soft_skill_questions : List Question
  technical_questions : List Question
  answers : List (String × AnswerData)
  cheating_flags : List CheatFlag
  status : SessionStatus
  time_limit_minutes : ℚ
  results : Option Results
deriving DecidableEq

/-- The mutable state of a `CandidateTestSystem` instance. -/
structure TestSystem where
  test_sessions : List (String × SessionState)
  test_results : List (String × Results)
deriving DecidableEq

/-- The `SOFT_SKILL_QUESTIONS` class constant. -/
def SOFT_SKILL_QUESTIONS : List Question :=
  [ { id := "ss_q1",
      question := "How do you prioritize tasks when faced with multiple deadlines?",
      kind := .multiple_choice
        [ "I create a detailed schedule and stick to it strictly",
          "I assess urgency and importance, then prioritize accordingly",
          "I work on whatever seems most interesting first",
          "I ask my manager to prioritize for me" ] 1,
      weight := 1 },
    { id := "ss_q2",
      question := "Describe a time when you had to work with a difficult team member.",
      kind := .text_input 50, weight := 1.5 },
    { id := "ss_q3",
      question := "How do you handle constructive criticism?",
      kind := .multiple_choice
        [ "I take it personally and feel discouraged",
          "I listen carefully, ask questions, and use it to improve",
          "I ignore it if I disagree",
          "I defend my position aggressively" ] 1,
      weight := 1 },
    { id := "ss_q4",
      question := "Rate your communication skills (1-10)",
      kind := .scale 1 10, weight := 0.8 },
    { id := "ss_q5",
      question := "How do you approach learning new technologies?",
      kind := .text_input 30, weight := 1.2 },
    { id := "ss_q6",
      question := "What motivates you most in your work?",
      kind := .multiple_choice
        [ "Financial compensation and benefits",
          "Challenging problems and continuous learning",
          "Recognition and praise from colleagues",
          "Work-life balance and flexibility" ] (-1),
      weight := 1 },
    { id := "ss_q7",
      question := "Describe a situation where you had to adapt quickly to change.",
      kind := .text_input 40, weight := 1.5 },
    { id := "ss_q8",
      question := "How do you handle stress and pressure in the workplace?",
      kind := .multiple_choice
        [ "I tend to get overwhelmed and struggle to focus",
          "I break tasks into smaller steps and stay organized",
          "I avoid stressful situations when possible",
          "I thrive under pressure and work best with tight deadlines" ] 1,
      weight := 1 },
    { id := "ss_q9",
      question := "Rate your ability to work independently without supervision (1-10)",
      kind := .scale 1 10, weight := 0.8 },
    { id := "ss_q10",
      question := "Describe your approach to collaborating with team members on a complex project.",
      kind := .text_input 50, weight := 1.5 } ]

/-- Session-id format string of `create_test_session` (the timestamp part is
abstracted to the decimal form of the model clock). -/
def mkSessionId (cid : Int) (now : ℚ) : String :=
  "test_" ++ toString cid ++ "_" ++ toString now

/-- The session record stored by `create_test_session`: the full soft-skill
bank, **no** technical questions, empty answers and flags, a 45-minute
limit, status `in_progress`. -/
def mkCreatedSession (cid : Int) (now : ℚ) : SessionState :=
  { session_id := mkSessionId cid now
    candidate_id := cid
    start_time := now
    soft_skill_questions := SOFT_SKILL_QUESTIONS
    technical_questions := []
    answers := []
    cheating_flags := []
    status := .in_progress
    time_limit_minutes := 45
    results := none }

/-- `create_test_session(candidate_id, job_requirements)` (the requirements
argument is unused by the source: technical questions are never added). -/
def create_test_session (sys : TestSystem) (cid : Int) (now : ℚ) : String × TestSystem :=
  let sid := mkSessionId cid now
  (sid, { sys with test_sessions := upsertAssoc sys.test_sessions sid (mkCreatedSession cid now) })

/-- `submit_answer(session_id, question_id, answer, time_taken_seconds)`:
`False` when the session is unknown or not `in_progress` (state untouched),
else store the answer under the question id and return `True`. -/
def submit_answer (sys : TestSystem) (sid qid : String) (a : AnsVal)
    (t : Option Int) (now : ℚ) : Bool × TestSystem :=
  match lookupAssoc sys.test_sessions sid with
  | none => (false, sys)
  | some s =>
    if s.status ≠ .in_progress then (false, sys)
    else
      (true,
        { sys with
            test_sessions :=
              upsertAssoc sys.test_sessions sid
                { s with answers := upsertAssoc s.answers qid ⟨a, now, t⟩ } })

/-- `flag_cheating_attempt(session_id, reason)`. -/
def flag_cheating_attempt (sys : TestSystem) (sid reason : String) (now : ℚ) : TestSystem :=
  match lookupAssoc sys.test_sessions sid with
  | none => sys
  | some s =>
    { sys with
        test_sessions :=
          upsertAssoc sys.test_sessions sid
            { s with cheating_flags := s.cheating_flags ++ [⟨now, reason⟩] } }

/-- Multiple-choice comparison `answer == question['correct_answer']`: a
string submitted against an integer key is unequal in Python. -/
def mcAnswerMatches (a : AnsVal) (correct : Int) : Bool :=
  match a with
  | .aInt i => i == correct
  | .aStr _ => false

/-- Word count of `str(answer).strip().split()`. -/
def pyWordCount (a : AnsVal) : Nat :=
  match a with
  | .aStr s => (wordsOf (pyStrip s)).length
  | .aInt _ => 1

/-- Scale-answer conversion: `int(answer)` when `str(answer).strip()` is all
digits, else the question's minimum value. -/
def scaleAnswerValue (a : AnsVal) (minVal : Int) : Int :=
  match a with
  | .aInt i => if 0 ≤ i then i else minVal
  | .aStr s => let t := pyStrip s; if pyIsDigit t then (digitsToNat t.data : Int) else minVal

/-- `_score_soft_skills`: weighted average over the answered soft-skill
questions; multiple choice scores `100*w` on an exact match else `40*w`;
text scores by word count against `min_words`; scale scores `value/max*100`. -/
def score_soft_skills (s : SessionState) : ℚ :=
  let acc :=
    s.soft_skill_questions.foldl
      (fun (acc : ℚ × ℚ) q =>
        match lookupAssoc s.answers q.id with
        | none => acc
        | some ad =>
          let w := q.weight
          let contribution : ℚ :=
            match q.kind with
            | .multiple_choice _ c =>
              if mcAnswerMatches ad.answer c then 100 * w else 40 * w
            | .text_input min_words =>
              let wc : ℚ := (pyWordCount ad.answer : ℚ)
              let sc : ℚ :=
                if (min_words : ℚ) ≤ wc then min 100 (60 + (wc - (min_words : ℚ)) * 2)
                else wc / (min_words : ℚ) * 60
              sc * w
            | .scale mn mx =>
              (scaleAnswerValue ad.answer mn : ℚ) / (mx : ℚ) * 100 * w
          (acc.1 + contribution, acc.2 + w))
      (0, 0)
  if 0 < acc.2 then acc.1 / acc.2 else 0

/-- `_score_technical`: like the soft-skill scorer but text answers score
`70 + min((wc - min_words) * 1.5, 30)` capped at 100, and an answered
multiple-choice question would add weight but no score (no such branch). -/
def score_technical (s : SessionState) : ℚ :=
  let acc :=
    s.technical_questions.foldl
      (fun (acc : ℚ × ℚ) q =>
        match lookupAssoc s.answers q.id with
        | none => acc
        | some ad =>
          let w := q.weight
          let contribution : ℚ :=
            match q.kind with
            | .multiple_choice _ _ => 0
            | .text_input min_words =>
              let wc : ℚ := (pyWordCount ad.answer : ℚ)
              let sc : ℚ :=
                if (min_words : ℚ) ≤ wc then 70 + min ((wc - (min_words : ℚ)) * (3 / 2)) 30
                else wc / (min_words : ℚ) * 60
              min sc 100 * w
            | .scale mn mx =>
              (scaleAnswerValue ad.answer mn : ℚ) / (mx : ℚ) * 100 * w
          (acc.1 + contribution, acc.2 + w))
      (0, 0)
  if 0 < acc.2 then acc.1 / acc.2 else 0

/-- Minutes elapsed between the session start and the completion clock. -/
def time_taken_of (s : SessionState) (now : ℚ) : ℚ := (now - s.start_time) / 60

/-- `time_penalty`: `min((elapsed - limit) * 2, 20)` past the limit, else 0. -/
def time_penalty_of (s : SessionState) (now : ℚ) : ℚ :=
  if s.time_limit_minutes < time_taken_of s now then
    min ((time_taken_of s now - s.time_limit_minutes) * 2) 20
  else 0

/-- `cheating_penalty = min(flag_count * 10, 30)`. -/
def cheating_penalty_of (s : SessionState) : ℚ :=
  min ((s.cheating_flags.length : ℚ) * 10) 30

/-- The results record assembled by `complete_test` from the session's
current answers, flags and the completion clock. -/
def compute_results (sid : String) (s : SessionState) (now : ℚ) : Results :=
  let tp := time_penalty_of s now
  let cp := cheating_penalty_of s
  let final_soft := max 0 (score_soft_skills s - tp - cp)
  let final_tech := max 0 (score_technical s - tp - cp)
  let overall := (final_soft + final_tech) / 2
  { session_id := sid
    candidate_id := s.candidate_id
    soft_skill_score := pyRound2 final_soft
    technical_score := pyRound2 final_tech
    overall_score := pyRound2 overall
    time_taken_minutes := pyRound2 (time_taken_of s now)
    time_penalty := pyRound2 tp
    cheating_flags := s.cheating_flags.length
    cheating_penalty := pyRound2 cp
    completed_at := now }

/-- `complete_test(session_id)`: raises only for an unknown id; otherwise
(whatever the current status) computes scores from the current clock and
flag list, marks the session completed and overwrites the stored results. -/
def complete_test (sys : TestSystem) (sid : String) (now : ℚ) :
    Except String (Results × TestSystem) :=
  match lookupAssoc sys.test_sessions sid with
  | none => .error ("Session " ++ sid ++ " not found")
  | some s =>
    let r := compute_results sid s now
    let s' := { s with status := .completed, results := some r }
    .ok (r,
      { test_sessions := upsertAssoc sys.test_sessions sid s'
        test_results := upsertAssoc sys.test_results sid r })

/-! ## GitHub discovery (`github_discovery.py`): data model -/

/-- One repository node of the GraphQL payload (`updatedAt` abstracted to a
day count). -/
structure RepoNode where
  name : String
  primaryLanguage : Option String
  stargazerCount : ℕ
  updatedAt : Option ℤ
  topics : List String
deriving DecidableEq

/-- One user node of the GraphQL payload; empty strings model the falsy
`None`/`""` field values the source tests with `user.get(...)`. -/
structure UserNode where
  login : String
  name : String
  location : String
  followers : ℕ
  repos : List RepoNode
  commitContribs : ℕ
  prContribs : ℕ
  issueContribs : ℕ
deriving DecidableEq

/-- The `jd_spec` dictionary handed to `score_user`. -/
structure JDSpec where
  languages : List String
  topics : List String
deriving DecidableEq

/-- Lower-cased primary languages of the user's repositories. -/
def userLanguages (u : UserNode) : Finset String :=
  u.repos.foldl
    (fun s r =>
      match r.primaryLanguage with
      | some l => insert (strToLower l) s
      | none => s)
    ∅

/-- Lower-cased topics of the user's repositories. -/
def userTopics (u : UserNode) : Finset String :=
  u.repos.foldl (fun s r => r.topics.foldl (fun s t => insert (strToLower t) s) s) ∅

/-- Largest star count over the user's repositories. -/
def maxRepoStars (u : UserNode) : ℕ :=
  u.repos.foldl (fun m r => max m r.stargazerCount) 0

/-- Most recent repository update, if any. -/
def mostRecentUpdate (u : UserNode) : Option ℤ :=
  u.repos.foldl
    (fun m r =>
      match m, r.updatedAt with
      | none, d => d
      | some a, some b => some (max a b)
      | some a, none => some a)
    none

/-- Sum of commit, pull-request and issue contributions. -/
def totalContributions (u : UserNode) : ℕ :=
  u.commitContribs + u.prContribs + u.issueContribs

/-- Skill component of `score_user` (60 of 100). -/
noncomputable def skill_component (u : UserNode) (jd : JDSpec) : ℝ :=
  let lang_match := (jd.languages.toFinset ∩ userLanguages u).card
  let topic_match := (jd.topics.toFinset ∩ userTopics u).card
  let total_skills := jd.languages.toFinset.card + jd.topics.toFinset.card
  if 0 < total_skills then ((lang_match + topic_match : ℕ) : ℝ) / (total_skills : ℝ) * 60
  else 0

/-- Activity component of `score_user` (25 of 100): log-scaled contribution
count plus a 10-point bonus for a repository update within 90 days. -/
noncomputable def activity_component (now : ℤ) (u : UserNode) : ℝ :=
  min (Real.log ((totalContributions u : ℝ) + 1) / Real.log 1000) 1 * 15 +
    (match mostRecentUpdate u with
     | some d => if now - d ≤ 90 then (10 : ℝ) else 0
     | none => 0)

/-- Quality component of `score_user` (10 of 100). -/
noncomputable def quality_component (u : UserNode) : ℝ :=
  min (Real.log (((maxRepoStars u + u.followers : ℕ) : ℝ) + 1) / Real.log 1000) 1 * 10

/-- Completeness component of `score_user` (5 of 100). -/
noncomputable def completeness_component (u : UserNode) : ℝ :=
  (if u.name ≠ "" then (2.5 : ℝ) else 0) + (if u.location ≠ "" then (2.5 : ℝ) else 0)

/-- The numeric fields of the dictionary returned by `score_user` (reason
strings and the echoed language/topic lists are presentation-only). -/
structure UserScore where
  total_score : ℝ
  technical_skills_score : ℝ
  experience_score : ℝ
  activity_score : ℝ
  education_score : ℝ
  soft_skills_score : ℝ
  followers : ℕ
  max_stars : ℕ

/-- `score_user(user, jd_spec)`: component sum clamped to `[0, 100]` and
reported rounded to one decimal. -/
noncomputable def score_user (now : ℤ) (u : UserNode) (jd : JDSpec) : UserScore :=
  let total :=
    min (max (skill_component u jd + activity_component now u +
              quality_component u + completeness_component u) 0) 100
  { total_score := pyRound1R total
    technical_skills_score := pyRound1R (skill_component u jd)
    experience_score := 0
    activity_score := pyRound1R (activity_component now u)
    education_score := 0
    soft_skills_score := 0
    followers := u.followers
    max_stars := maxRepoStars u }

/-! ## Skill normalization (`map_technical_to_languages`) -/

/-- `needle` starts `hay` (over character lists). -/
def listStartsWithB : List Char → List Char → Bool
  | [], _ => true
  | _ :: _, [] => false
  | a :: as, b :: bs => a == b && listStartsWithB as bs

/-- Python substring containment `needle in hay` (over character lists). -/
def listSubstrB (needle : List Char) : List Char → Bool
  | [] => listStartsWithB needle []
  | c :: rest => listStartsWithB needle (c :: rest) || listSubstrB needle rest

/-- Python `needle in hay` on strings. -/
def strContains (needle hay : String) : Bool := listSubstrB needle.data hay.data

/-- `set.add` on a list-modelled Python set (append on first occurrence). -/
def pySetInsert (x : String) (s : List String) : List String :=
  if x ∈ s then s else s ++ [x]

/-- Lexicographic comparison on character lists by code point, the order
behind Python's `sorted` on strings. -/
def lexLeB : List Char → List Char → Bool
  | [], _ => true
  | _ :: _, [] => false
  | a :: as, b :: bs =>
    if a.toNat < b.toNat then true
    else if b.toNat < a.toNat then false
    else lexLeB as bs

/-- Python `a <= b` on strings, as a proposition. -/
def strLeP (a b : String) : Prop := lexLeB a.data b.data = true

instance : DecidableRel strLeP := fun a b => by unfold strLeP; infer_instance

/-- Python `sorted` on a list of strings (stable; on the duplicate-free
set lists it is applied to, any correct sort agrees). -/
def sortStrList (l : List String) : List String := l.insertionSort strLeP

/-- The `alias_map` table of `map_technical_to_languages`, in source order. -/
def alias_map : List (String × String) :=
  [ ("python", "python"), ("javascript", "javascript"), ("typescript", "typescript"),
    ("java", "java"), ("go", "go"), ("golang", "go"), ("rust", "rust"),
    ("ruby", "ruby"), ("php", "php"), ("c++", "c++"), ("c#", "c#"),
    ("dotnet", "c#"), (".net", "c#"), ("scala", "scala"), ("kotlin", "kotlin"),
    ("swift", "swift"),
    ("django", "python"), ("flask", "python"), ("fastapi", "python"),
    ("pandas", "python"), ("numpy", "python"),
    ("react", "javascript"), ("next.js", "javascript"), ("nextjs", "javascript"),
    ("node", "javascript"), ("node.js", "javascript"), ("express", "javascript"),
    ("angular", "javascript"), ("vue", "javascript"), ("nuxt", "javascript"),
    ("svelte", "javascript"),
    ("spring", "java"), ("spring boot", "java"),
    ("rails", "ruby"), ("laravel", "php"), ("symfony", "php") ]

/-- Inner loop of `map_technical_to_languages`: add the canonical value of
every alias key contained in the lower-cased token. -/
def applyAliases (t : String) (s : List String) : List String :=
  alias_map.foldl (fun s kv => if strContains kv.1 t then pySetInsert kv.2 s else s) s

/-- The web/backend fallback of `map_technical_to_languages`, applied to the
joined lower-cased token text when no alias matched. -/
def fallbackLangs (techLower : List String) (s : List String) : List String :=
  let joined := String.intercalate " " techLower
  let s :=
    if ["django", "fastapi", "flask", "python"].any (fun k => strContains k joined) then
      pySetInsert "python" s
    else s
  let s :=
    if ["react", "node", "angular", "vue", "typescript", "javascript"].any
        (fun k => strContains k joined) then
      let s := pySetInsert "javascript" s
      if strContains "typescript" joined then pySetInsert "typescript" s else s
    else s
  if ["spring", "java"].any (fun k => strContains k joined) then pySetInsert "java" s else s

/-- `map_technical_to_languages(technical)`: the skill normalizer. -/
def map_technical_to_languages (technical : List String) : List String :=
  if technical = [] then []
  else
    let techLower := technical.map strToLower
    let langSet := techLower.foldl (fun s t => applyAliases t s) []
    let langSet := if langSet = [] then fallbackLangs techLower [] else langSet
    sortStrList langSet

/-! ## Paginated user search (`search_github_users`) -/

/-- The variable part of one GraphQL page request (search string and page
cursor); the per-page size is fixed throughout a call. -/
structure PageRequest where
  query : String
  cursor : Option String
deriving DecidableEq

/-- The `data.search` part of a page response. -/
structure SearchPayload where
  nodes : List (Option UserNode)
  hasNextPage : Bool
  endCursor : Option String
deriving DecidableEq

/-- One HTTP response: status code plus the optional `data.search` payload
(`none` models a 200 body without usable search data, which breaks the
page loop). -/
structure ApiResponse where
  status : ℕ
  search : Option SearchPayload
deriving DecidableEq

/-- The accumulating search state: the deduplicated `all_users` dict and the
trace of page requests issued so far. -/
structure SearchState where
  all_users : List (String × UserNode)
  trace : List PageRequest
deriving DecidableEq

/-- Outcome of a search run: normal return, the 401/403 abort, or fuel
exhaustion of the page loop (the loop in the source has no fuel bound; a
run that exhausts every fuel never terminates). -/
inductive SearchOutcome where
  | ok (st : SearchState)
  | authError (st : SearchState)
  | outOfFuel (st : SearchState)
deriving DecidableEq

/-- `per_page = max(5, min(20, target_count))`. -/
def perPage (target : ℕ) : ℕ := max 5 (min 20 target)

/-- `max_pages = max(1, min(3, ceil(target_count / per_page)))`. -/
def maxPagesFor (target : ℕ) : ℕ :=
  max 1 (min 3 ((target + perPage target - 1) / perPage target))

/-- The user-search query string built per language. -/
def build_search_query (min_repos min_followers : ℕ) (lang : String) : String :=
  let parts := ["type:user", "repos:>=" ++ toString min_repos]
  let parts := if 0 < min_followers then parts ++ ["followers:>=" ++ toString min_followers] else parts
  let parts := if lang ≠ "" then parts ++ ["language:" ++ lang] else parts
  String.intercalate " " parts

/-- Deduplicating insertion into `all_users`: skip null nodes, falsy logins
and already-seen logins. -/
def insertFoundUser (st : List (String × UserNode)) (u? : Option UserNode) :
    List (String × UserNode) :=
  match u? with
  | none => st
  | some u =>
    if u.login ≠ "" ∧ lookupAssoc st u.login = none then st ++ [(u.login, u)] else st

/-- The `while has_next and pages_fetched < max_pages` loop for one language.
Each iteration issues one page request (`api` applied to the number of
requests issued so far).  A non-200 response other than 401/403 re-enters
the loop with the cursor, `has_next` flag and page counter unchanged,
exactly as the source's bare `continue` does. -/
def langLoopF (api : ℕ → ApiResponse) (q : String) (target : ℕ) :
    ℕ → SearchState → Option String → Bool → ℕ → SearchOutcome
  | 0, st, _, _, _ => .outOfFuel st
  | fuel + 1, st, cursor, hasNext, pages =>
    if hasNext = true ∧ pages < maxPagesFor target then
      let resp := api st.trace.length
      let st' : SearchState := { st with trace := st.trace ++ [⟨q, cursor⟩] }
      if resp.status ≠ 200 then
        if resp.status = 401 ∨ resp.status = 403 then .authError st'
        else langLoopF api q target fuel st' cursor hasNext pages
      else
        match resp.search with
        | none => .ok st'
        | some payload =>
          let users' := payload.nodes.foldl insertFoundUser st'.all_users
          if target ≤ users'.length then .ok { st' with all_users := users' }
          else
            langLoopF api q target fuel { st' with all_users := users' }
              payload.endCursor payload.hasNextPage (pages + 1)
    else .ok st

/-- `lang_list = languages or [""]`. -/
def langListOf (languages : List String) : List String :=
  if languages = [] then [""] else languages

/-- The outer per-language loop: run the page loop for each language,
stopping early once `target_count` users are collected; a 401/403 abort or
fuel exhaustion ends the whole search at once. -/
def searchLangsF (api : ℕ → ApiResponse) (min_repos min_followers target fuel : ℕ) :
    List String → SearchState → SearchOutcome
  | [], st => .ok st
  | lang :: rest, st =>
    match langLoopF api (build_search_query min_repos min_followers lang) target fuel st none true 0 with
    | .authError st' => .authError st'
    | .outOfFuel st' => .outOfFuel st'
    | .ok st' =>
      if target ≤ st'.all_users.length then .ok st'
      else searchLangsF api min_repos min_followers target fuel rest st'

/-- `search_github_users(languages, min_repos, min_followers, _, target_count)`
against an abstract API, with explicit loop fuel. -/
def search_github_users (api : ℕ → ApiResponse) (languages : List String)
    (min_repos min_followers target fuel : ℕ) : SearchOutcome :=
  searchLangsF api min_repos min_followers target fuel (langListOf languages) ⟨[], []⟩

/-! ## Discovery ranking (`discover_candidates_for_job`) -/

/-- The candidate dictionary assembled by `discover_candidates_for_job`
(portfolio details and reason strings omitted; `score` is the
`total_score` reported by `score_user`). -/
structure Candidate where
  login : String
  name : String
  location : String
  followers : ℕ
  total_stars : ℕ
  score : ℝ

/-- Mapping of one fetched user node to the candidate record. -/
noncomputable def toCandidate (now : ℤ) (jd : JDSpec) (u : UserNode) : Candidate :=
  { login := u.login
    name := if u.name ≠ "" then u.name else u.login
    location := u.location
    followers := (score_user now u jd).followers
    total_stars := maxRepoStars u
    score := (score_user now u jd).total_score }

/-- The comparison behind `results.sort(key=lambda x: x.get("score", 0),
reverse=True)`: descending by score.  A new element of the insertion sort
passes every strictly smaller score but stays behind equal ones, matching
the stability of Python's sort. -/
def candGe (a b : Candidate) : Prop := b.score ≤ a.score

noncomputable instance : DecidableRel candGe := fun a b => by
  unfold candGe; infer_instance

instance : IsTotal Candidate candGe := ⟨fun a b => le_total b.score a.score⟩

instance : IsTrans Candidate candGe := ⟨fun _ _ _ hab hbc => le_trans hbc hab⟩

/-- Stable descending sort by `score`, as `results.sort(key=..., reverse=True)`. -/
noncomputable def sortByScoreDesc (l : List Candidate) : List Candidate :=
  l.insertionSort candGe

/-- The pure tail of `discover_candidates_for_job`: score every fetched
user, sort descending by score and truncate to `max_candidates`. -/
noncomputable def rank_candidates (now : ℤ) (jd : JDSpec) (users : List UserNode)
    (max_candidates : ℕ) : List Candidate :=
  (sortByScoreDesc (users.map (toCandidate now jd))).take max_candidates

/-! ## Lightweight match engine (`smart_recruiter._mock_score`) -/

/-- The candidate fields read by `_mock_score`. -/
structure UICandidate where
  skills : List String
  years_experience : ℚ
  github_contributions : ℚ
deriving DecidableEq

/-- The job-requirement fields read by `_mock_score`. -/
structure JobRequirements where
  technical : List String
  experience_years : ℚ
deriving DecidableEq

/-- `_mock_score(candidate, job_requirements)`. -/
def mock_score (c : UICandidate) (j : JobRequirements) : ℚ :=
  let cs := (c.skills.map strToLower).toFinset
  let rs := (j.technical.map strToLower).toFinset
  if rs = ∅ then 50
  else
    let ratio : ℚ := ((cs ∩ rs).card : ℚ) / (rs.card : ℚ)
    let score := ratio * 70
    let score :=
      score +
        (if j.experience_years ≤ c.years_experience then (20 : ℚ)
         else if j.experience_years * (7 / 10) ≤ c.years_experience then 10 else 0)
    let score :=
      score +
        (if (100 : ℚ) < c.github_contributions then (10 : ℚ)
         else if (50 : ℚ) < c.github_contributions then 5 else 0)
    min (pyRound2 score) 100

/-- Modelled from the spec: §4.5 describes the match engine as the skill
ratio times 70 plus the experience and activity bonuses, then "Clamp to
100, round to 2 decimals"; a flat 50.0 when the job has no required
skills.  Used as the reference for the refinement claim about
`_mock_score`. -/
def mock_score_spec (c : UICandidate) (j : JobRequirements) : ℚ :=
  let cs := (c.skills.map strToLower).toFinset
  let rs := (j.technical.map strToLower).toFinset
  if rs = ∅ then 50
  else
    let raw : ℚ :=
      ((cs ∩ rs).card : ℚ) / (rs.card : ℚ) * 70 +
        (if j.experience_years ≤ c.years_experience then (20 : ℚ)
         else if j.experience_years * (7 / 10) ≤ c.years_experience then 10 else 0) +
        (if (100 : ℚ) < c.github_contributions then (10 : ℚ)
         else if (50 : ℚ) < c.github_contributions then 5 else 0)
    pyRound2 (min raw 100)

/-! ## Concrete inputs used by counterexamples and bug reproductions -/

/-- A single-multiple-choice-question session (the spec's §4.6 / §8 scoring
scenario shape), answered once at the start of the session. -/
def singleMCSession (correct : Int) (w : ℚ) (a : AnsVal) : SessionState :=
  { session_id := "mc"
    candidate_id := 1
    start_time := 0
    soft_skill_questions := [⟨"q1", "", .multiple_choice [] correct, w⟩]
    technical_questions := []
    answers := [("q1", ⟨a, 0, none⟩)]
    cheating_flags := []
    status := .in_progress
    time_limit_minutes := 45
    results := none }

/-- A freshly created session in which only the sentinel question `ss_q6`
(`correct_answer = -1`) was answered, with option index 1. -/
def sentinelSession : SessionState :=
  { mkCreatedSession 1 0 with answers := [("ss_q6", ⟨.aInt 1, 0, none⟩)] }

/-- A freshly created session in which only the scale question `ss_q4`
(range 1–10) was answered with the out-of-range value 100. -/
def over50Session : SessionState :=
  { mkCreatedSession 1 0 with answers := [("ss_q4", ⟨.aInt 100, 0, none⟩)] }

/-- An API that answers every request with a bare 500. -/
def api_always_500 : ℕ → ApiResponse := fun _ => ⟨500, none⟩

/-- An API that answers every request with a bare 403. -/
def api_always_403 : ℕ → ApiResponse := fun _ => ⟨403, none⟩

/-- An API whose first response is a 500 and whose later responses are a
200 with an empty final page. -/
def api_one_500_then_empty : ℕ → ApiResponse := fun n =>
  if n = 0 then ⟨500, none⟩ else ⟨200, some ⟨[], false, none⟩⟩

/-- A user profile with no repositories, no contributions, no followers and
empty name/location — every scoring component is zero. -/
def blankUser (login : String) : UserNode :=
  { login := login, name := "", location := "", followers := 0, repos := []
    commitContribs := 0, prContribs := 0, issueContribs := 0 }

/-- A user whose only repository has primary language `python`, no stars
and no update timestamp. -/
def onePythonRepoUser : UserNode :=
  { login := "u", name := "", location := "", followers := 0
    repos := [⟨"r", some "python", 0, none, []⟩]
    commitContribs := 0, prContribs := 0, issueContribs := 0 }

/-- A job spec naming seven languages and no topics (the skill component of
a one-language match is then 60/7, which is not a one-decimal value). -/
def sevenLangJD : JDSpec :=
  { languages := ["python", "qa", "qb", "qc", "qd", "qe", "qf"], topics := [] }

/-- A job spec naming one language and no topics. -/
def pythonJD : JDSpec := { languages := ["python"], topics := [] }

/-! ## Rounding lemmas -/

theorem pyRoundInt_le {α : Type} [LinearOrderedField α] [FloorRing α]
    {x : α} {n : ℤ} (h : x ≤ (n : α)) : pyRoundInt x ≤ n := by
  have h1 : ⌊x⌋ ≤ n := by
    have := Int.floor_le_floor h
    simpa using this
  unfold pyRoundInt
  split_ifs with h2 h3 h4
  · exact h1
  · have hx : (⌊x⌋ : α) + 1 / 2 < x := by linarith
    have hco : (⌊x⌋ : α) < (n : α) := by linarith
    have : ⌊x⌋ < n := by exact_mod_cast hco
    omega
  · exact h1
  · have he : x - (⌊x⌋ : α) = 1 / 2 := le_antisymm (not_lt.mp h3) (not_lt.mp h2)
    have hco : (⌊x⌋ : α) < (n : α) := by linarith
    have : ⌊x⌋ < n := by exact_mod_cast hco
    omega

theorem le_pyRoundInt {α : Type} [LinearOrderedField α] [FloorRing α]
    {x : α} {n : ℤ} (h : (n : α) ≤ x) : n ≤ pyRoundInt x := by
  have h1 : n ≤ ⌊x⌋ := Int.le_floor.mpr h
  unfold pyRoundInt
  split_ifs <;> omega

theorem pyRound2_le {x c : ℚ} {n : ℤ} (hc : c = (n : ℚ) / 100) (h : x ≤ c) :
    pyRound2 x ≤ c := by
  unfold pyRound2
  rw [hc]
  have hx : x * 100 ≤ (n : ℚ) := by
    rw [hc] at h
    nlinarith
  have := pyRoundInt_le hx
  have hcast : (pyRoundInt (x * 100) : ℚ) ≤ (n : ℚ) := by exact_mod_cast this
  linarith

theorem le_pyRound2 {x c : ℚ} {n : ℤ} (hc : c = (n : ℚ) / 100) (h : c ≤ x) :
    c ≤ pyRound2 x := by
  unfold pyRound2
  rw [hc]
  have hx : (n : ℚ) ≤ x * 100 := by
    rw [hc] at h
    nlinarith
  have := le_pyRoundInt hx
  have hcast : (n : ℚ) ≤ (pyRoundInt (x * 100) : ℚ) := by exact_mod_cast this
  linarith

theorem pyRound1R_le {x : ℝ} {n : ℤ} (h : x ≤ (n : ℝ) / 10) :
    pyRound1R x ≤ (n : ℝ) / 10 := by
  unfold pyRound1R
  have hx : x * 10 ≤ (n : ℝ) := by nlinarith
  have := pyRoundInt_le hx
  have hcast : (pyRoundInt (x * 10) : ℝ) ≤ (n : ℝ) := by exact_mod_cast this
  linarith

theorem le_pyRound1R {x : ℝ} {n : ℤ} (h : (n : ℝ) / 10 ≤ x) :
    (n : ℝ) / 10 ≤ pyRound1R x := by
  unfold pyRound1R
  have hx : (n : ℝ) ≤ x * 10 := by nlinarith
  have := le_pyRoundInt hx
  have hcast : (n : ℝ) ≤ (pyRoundInt (x * 10) : ℝ) := by exact_mod_cast this
  linarith

/-! ## Association-list lemmas -/

theorem lookupAssoc_upsert_self {β : Type} (l : List (String × β)) (k : String) (v : β) :
    lookupAssoc (upsertAssoc l k v) k = some v := by
  induction l with
  | nil => simp [upsertAssoc, lookupAssoc]
  | cons hd tl ih =>
    obtain ⟨k', v'⟩ := hd
    by_cases h : k' = k
    · simp [upsertAssoc, h, lookupAssoc]
    · simp [upsertAssoc, h, lookupAssoc, ih]

theorem lookupAssoc_upsert_ne {β : Type} (l : List (String × β)) {k k' : String}
    (v : β) (h : k' ≠ k) :
    lookupAssoc (upsertAssoc l k v) k' = lookupAssoc l k' := by
  have h' : ¬k = k' := fun e => h e.symm
  induction l with
  | nil => simp [upsertAssoc, lookupAssoc, h']
  | cons hd tl ih =>
    obtain ⟨k0, v0⟩ := hd
    by_cases hk : k0 = k
    · subst hk
      simp [upsertAssoc, lookupAssoc, h']
    · simp [upsertAssoc, hk, lookupAssoc, ih]

/-! ## Order lemmas for the string sort -/

theorem lexLeB_total : ∀ a b : List Char, lexLeB a b = true ∨ lexLeB b a = true := by
  intro a
  induction a with
  | nil => intro b; left; rfl
  | cons x xs ih =>
    intro b
    cases b with
    | nil => right; rfl
    | cons y ys =>
      simp only [lexLeB]
      rcases Nat.lt_trichotomy x.toNat y.toNat with h | h | h
      · left; simp [h]
      · have h1 : ¬x.toNat < y.toNat := by omega
        have h2 : ¬y.toNat < x.toNat := by omega
        simpa [h1, h2] using ih ys
      · right; simp [h]

theorem lexLeB_trans :
    ∀ a b c : List Char, lexLeB a b = true → lexLeB b c = true → lexLeB a c = true := by
  intro a
  induction a with
  | nil => intro b c _ _; rfl
  | cons x xs ih =>
    intro b c hab hbc
    cases b with
    | nil => simp [lexLeB] at hab
    | cons y ys =>
      cases c with
      | nil => simp [lexLeB] at hbc
      | cons z zs =>
        simp only [lexLeB] at hab hbc ⊢
        split_ifs at hab hbc ⊢ <;>
          first
            | rfl
            | omega
            | (exact ih ys zs hab hbc)

instance : IsTotal String strLeP :=
  ⟨fun a b => by unfold strLeP; exact lexLeB_total a.data b.data⟩

instance : IsTrans String strLeP :=
  ⟨fun a b c hab hbc => lexLeB_trans a.data b.data c.data hab hbc⟩

theorem sorted_sortStrList (l : List String) : List.Sorted strLeP (sortStrList l) :=
  List.sorted_insertionSort strLeP l

theorem perm_sortStrList (l : List String) : (sortStrList l).Perm l :=
  List.perm_insertionSort strLeP l

/-! ## Set-list lemmas for the normalizer -/

theorem mem_pySetInsert {a x : String} {s : List String} :
    a ∈ pySetInsert x s ↔ a = x ∨ a ∈ s := by
  unfold pySetInsert
  split_ifs with h
  · constructor
    · exact fun ha => Or.inr ha
    · rintro (rfl | ha)
      · exact h
      · exact ha
  · simp [List.mem_append, or_comm]

theorem nodup_pySetInsert {x : String} {s : List String} (hs : s.Nodup) :
    (pySetInsert x s).Nodup := by
  unfold pySetInsert
  split_ifs with h
  · exact hs
  · simp [List.nodup_append, hs, h]

/-! ## Alias-fold lemmas for the normalizer -/

theorem mem_aliasFold (t : String) (al : List (String × String)) :
    ∀ (s : List String) {y : String},
      y ∈ al.foldl (fun s kv => if strContains kv.1 t then pySetInsert kv.2 s else s) s →
      y ∈ s ∨ y ∈ al.map Prod.snd := by
  induction al with
  | nil => intro s y h; exact Or.inl h
  | cons kv rest ih =>
    intro s y h
    rw [List.foldl_cons] at h
    rcases ih _ h with h' | h'
    · by_cases hc : strContains kv.1 t = true
      · rw [if_pos hc] at h'
        rcases mem_pySetInsert.mp h' with rfl | hs
        · right; simp
        · exact Or.inl hs
      · rw [if_neg hc] at h'
        exact Or.inl h'
    · right
      exact List.mem_cons_of_mem _ h'

theorem nodup_aliasFold (t : String) (al : List (String × String)) :
    ∀ (s : List String), s.Nodup →
      (al.foldl (fun s kv => if strContains kv.1 t then pySetInsert kv.2 s else s) s).Nodup := by
  induction al with
  | nil => intro s hs; exact hs
  | cons kv rest ih =>
    intro s hs
    rw [List.foldl_cons]
    apply ih
    by_cases hc : strContains kv.1 t = true
    · rw [if_pos hc]; exact nodup_pySetInsert hs
    · rw [if_neg hc]; exact hs

theorem mem_applyAliases {t y : String} {s : List String} (h : y ∈ applyAliases t s) :
    y ∈ s ∨ y ∈ alias_map.map Prod.snd :=
  mem_aliasFold t alias_map s h

theorem nodup_applyAliases {t : String} {s : List String} (hs : s.Nodup) :
    (applyAliases t s).Nodup :=
  nodup_aliasFold t alias_map s hs

theorem mem_tokensFold (tl : List String) :
    ∀ (s : List String) {y : String},
      y ∈ tl.foldl (fun s t => applyAliases t s) s →
      y ∈ s ∨ y ∈ alias_map.map Prod.snd := by
  induction tl with
  | nil => intro s y h; exact Or.inl h
  | cons t rest ih =>
    intro s y h
    rw [List.foldl_cons] at h
    rcases ih _ h with h' | h'
    · exact mem_applyAliases h'
    · exact Or.inr h'

theorem nodup_tokensFold (tl : List String) :
    ∀ (s : List String), s.Nodup → (tl.foldl (fun s t => applyAliases t s) s).Nodup := by
  induction tl with
  | nil => intro s hs; exact hs
  | cons t rest ih =>
    intro s hs
    rw [List.foldl_cons]
    exact ih _ (nodup_applyAliases hs)

theorem mem_fallbackLangs {tl s : List String} {y : String} (h : y ∈ fallbackLangs tl s) :
    y ∈ s ∨ y = "python" ∨ y = "javascript" ∨ y = "typescript" ∨ y = "java" := by
  simp only [fallbackLangs] at h
  split_ifs at h <;> (try simp only [mem_pySetInsert] at h) <;> tauto

theorem nodup_fallbackLangs {tl s : List String} (hs : s.Nodup) :
    (fallbackLangs tl s).Nodup := by
  simp only [fallbackLangs]
  split_ifs <;>
    repeat (first | assumption | apply nodup_pySetInsert)

/-- The thirteen canonical language tokens the normalizer can emit. -/
def canonicalValues : List String :=
  ["python", "javascript", "typescript", "java", "go", "rust", "ruby", "php",
   "c++", "c#", "scala", "kotlin", "swift"]

theorem alias_values_canonical : ∀ y ∈ alias_map.map Prod.snd, y ∈ canonicalValues := by
  decide

theorem strToLower_canonical : ∀ c ∈ canonicalValues, strToLower c = c := by decide

/-- Every canonical token other than `javascript` matches exactly its own
alias entry, so re-normalizing it just re-inserts it.  (`javascript` is the
exception: the alias key `java` is a substring of it.) -/
theorem applyAliases_self :
    ∀ c ∈ ["python", "typescript", "java", "go", "rust", "ruby", "php",
           "c++", "c#", "scala", "kotlin", "swift"],
      ∀ s, applyAliases c s = pySetInsert c s := by
  intro c hc s
  fin_cases hc <;> rfl

theorem tokensFold_eq_setFold {l : List String}
    (h : ∀ t ∈ l, ∀ s, applyAliases t s = pySetInsert t s) :
    ∀ s, l.foldl (fun s t => applyAliases t s) s = l.foldl (fun s t => pySetInsert t s) s := by
  induction l with
  | nil => intro s; rfl
  | cons t rest ih =>
    intro s
    rw [List.foldl_cons, List.foldl_cons, h t (by simp)]
    exact ih (fun t' ht' s' => h t' (by simp [ht']) s') _

theorem foldl_pySetInsert_of_nodup :
    ∀ (l s : List String), l.Nodup → (∀ a ∈ l, a ∉ s) →
      l.foldl (fun s t => pySetInsert t s) s = s ++ l := by
  intro l
  induction l with
  | nil => intro s _ _; simp
  | cons x xs ih =>
    intro s hnd hdisj
    rw [List.foldl_cons]
    have hx : x ∉ s := hdisj x (by simp)
    have hins : pySetInsert x s = s ++ [x] := by
      unfold pySetInsert; rw [if_neg hx]
    rw [hins, ih (s ++ [x]) hnd.of_cons ?_]
    · simp
    · intro a ha
      simp only [List.mem_append, List.mem_singleton]
      rintro (has | rfl)
      · exact hdisj a (List.mem_cons_of_mem _ ha) has
      · exact (List.nodup_cons.mp hnd).1 ha

theorem normalize_mem_canonical {x : List String} {y : String}
    (hy : y ∈ map_technical_to_languages x) : y ∈ canonicalValues := by
  by_cases hx : x = []
  · rw [hx] at hy
    simp [map_technical_to_languages] at hy
  · simp only [map_technical_to_languages, if_neg hx] at hy
    have hy' := (perm_sortStrList _).mem_iff.mp hy
    by_cases hb : (x.map strToLower).foldl (fun s t => applyAliases t s) [] = []
    · rw [if_pos hb] at hy'
      rcases mem_fallbackLangs hy' with h | h | h | h | h
      · simp at h
      · subst h; decide
      · subst h; decide
      · subst h; decide
      · subst h; decide
    · rw [if_neg hb] at hy'
      rcases mem_tokensFold _ _ hy' with h | h
      · simp at h
      · exact alias_values_canonical y h

theorem normalize_nodup (x : List String) : (map_technical_to_languages x).Nodup := by
  by_cases hx : x = []
  · rw [hx]
    simp [map_technical_to_languages]
  · simp only [map_technical_to_languages, if_neg hx]
    refine (perm_sortStrList _).nodup_iff.mpr ?_
    split_ifs with hb
    · exact nodup_fallbackLangs List.nodup_nil
    · exact nodup_tokensFold _ _ List.nodup_nil

theorem normalize_sorted (x : List String) :
    List.Sorted strLeP (map_technical_to_languages x) := by
  by_cases hx : x = []
  · rw [hx]
    simp [map_technical_to_languages]
  · simp only [map_technical_to_languages, if_neg hx]
    exact sorted_sortStrList _

/-- C7 (corrected claim): the normalizer is idempotent on every input whose
normalized output does not contain `javascript`.  (The alias key `java` is
a substring of the canonical token `javascript`, so re-normalizing a set
containing `javascript` adds `java`; every other canonical token
re-normalizes only to itself.) -/
theorem normalize_idempotent_without_javascript :
    ∀ x : List String, "javascript" ∉ map_technical_to_languages x →
      map_technical_to_languages (map_technical_to_languages x) =
        map_technical_to_languages x := by
  intro x hjs
  by_cases hnil : map_technical_to_languages x = []
  · rw [hnil]
    simp [map_technical_to_languages]
  · have hcan : ∀ y ∈ map_technical_to_languages x, y ∈ canonicalValues :=
      fun _ hy => normalize_mem_canonical hy
    have hc12 : ∀ y ∈ map_technical_to_languages x,
        y ∈ ["python", "typescript", "java", "go", "rust", "ruby", "php",
             "c++", "c#", "scala", "kotlin", "swift"] := by
      intro y hy
      have hmem := hcan y hy
      have hne : y ≠ "javascript" := fun e => hjs (e ▸ hy)
      fin_cases hmem <;> first | decide | (exact absurd rfl hne)
    have hlower : (map_technical_to_languages x).map strToLower
        = map_technical_to_languages x := by
      have h1 : ∀ y ∈ map_technical_to_languages x, strToLower y = y :=
        fun y hy => strToLower_canonical y (hcan y hy)
      calc (map_technical_to_languages x).map strToLower
          = (map_technical_to_languages x).map id := List.map_congr_left h1
        _ = map_technical_to_languages x := List.map_id _
    have hself : ∀ t ∈ map_technical_to_languages x, ∀ s,
        applyAliases t s = pySetInsert t s :=
      fun t ht s => applyAliases_self t (hc12 t ht) s
    have hfold : (map_technical_to_languages x).foldl (fun s t => applyAliases t s) []
        = map_technical_to_languages x := by
      rw [tokensFold_eq_setFold hself,
        foldl_pySetInsert_of_nodup _ [] (normalize_nodup x) (by simp), List.nil_append]
    conv_lhs => rw [map_technical_to_languages]
    rw [if_neg hnil]
    simp only [hlower, hfold, if_neg hnil]
    exact List.Sorted.insertionSort_eq (normalize_sorted x)

/-- C7 (counterexample): normalizing `["react"]` yields `["javascript"]`,
but a second normalization adds `java` (the alias key `java` is a substring
of `javascript`), so `normalize` is not idempotent as claimed. -/
theorem normalize_not_idempotent_on_react :
    map_technical_to_languages ["react"] = ["javascript"] ∧
      map_technical_to_languages (map_technical_to_languages ["react"])
        = ["java", "javascript"] ∧
      map_technical_to_languages (map_technical_to_languages ["react"])
        ≠ map_technical_to_languages ["react"] := by
  refine ⟨by decide, by decide, by decide⟩

/-- C7 (witness): the amended idempotence theorem applied at `["python"]`. -/
theorem normalize_idempotent_without_javascript_witness :
    "javascript" ∉ map_technical_to_languages ["python"] ∧
      map_technical_to_languages (map_technical_to_languages ["python"])
        = map_technical_to_languages ["python"] :=
  ⟨by decide, normalize_idempotent_without_javascript ["python"] (by decide)⟩

/-- C1 (amended claim): completing scores a multiple-choice question at
`100 × weight` exactly when the submitted answer equals the stored
`correct_answer` — the sentinel `-1` is compared like any other value, so a
"no single correct answer" question scores `40 × weight` for every actual
option index — and `40 × weight` otherwise; the single-question session of
the spec's scenario (weight 1.0, correct index 1, answered 1, no flags,
completed on time) reports a soft-skill subscore of exactly 100. -/
theorem mc_scoring_matches_stored_answer :
    (∀ (correct : Int) (w : ℚ) (a : AnsVal), 0 < w →
        score_soft_skills (singleMCSession correct w a)
          = if mcAnswerMatches a correct then 100 else 40) ∧
      (compute_results "mc" (singleMCSession 1 1 (.aInt 1)) 0).soft_skill_score = 100 := by
  constructor
  · intro correct w a hw
    have hw' : w ≠ 0 := ne_of_gt hw
    simp [score_soft_skills, singleMCSession, lookupAssoc]
    rw [if_pos hw]
    split_ifs with h
    · field_simp
    · field_simp
  · simp [compute_results, score_soft_skills, score_technical, singleMCSession,
      lookupAssoc, mcAnswerMatches, time_penalty_of, cheating_penalty_of,
      time_taken_of, pyRound2, pyRoundInt]
    norm_num

/-- C1 (witness): the amended multiple-choice scoring rule applied to a
session whose single question has weight 1 and correct index 0, answered
with index 1: the submission does not match, so the subscore is 40. -/
theorem mc_scoring_matches_stored_answer_witness :
    0 < (1 : ℚ) ∧ score_soft_skills (singleMCSession 0 1 (.aInt 1)) = 40 := by
  refine ⟨by norm_num, ?_⟩
  have h := mc_scoring_matches_stored_answer.1 0 1 (.aInt 1) (by norm_num)
  simpa [mcAnswerMatches] using h

/-- C1 (counterexample): in a freshly created session, answering the
sentinel question `ss_q6` (`correct_answer = -1`, weight 1.0) with option
index 1 yields a soft-skill subscore of 40, not the 100 the claim assigns
to questions with no single correct index. -/
theorem mc_sentinel_scores_partial_credit :
    score_soft_skills sentinelSession = 40 ∧ (40 : ℚ) ≠ 100 := by
  constructor
  · simp [score_soft_skills, sentinelSession, mkCreatedSession, SOFT_SKILL_QUESTIONS,
      lookupAssoc, mcAnswerMatches]
  · norm_num

/-- C8 (claim): `submit_answer` on an existing session that is not
`in_progress` is rejected with the state unchanged; on an `in_progress`
session it succeeds and upserts the answer under the question id (latest
submission wins, other answers untouched, status unchanged). -/
theorem submit_answer_guard_and_upsert :
    ∀ (sys : TestSystem) (sid qid : String) (s : SessionState) (a : AnsVal)
      (t : Option Int) (now : ℚ),
      lookupAssoc sys.test_sessions sid = some s →
      ((s.status ≠ .in_progress → submit_answer sys sid qid a t now = (false, sys)) ∧
        (s.status = .in_progress →
          (submit_answer sys sid qid a t now).1 = true ∧
            ∃ s' : SessionState,
              lookupAssoc (submit_answer sys sid qid a t now).2.test_sessions sid = some s' ∧
                lookupAssoc s'.answers qid = some ⟨a, now, t⟩ ∧
                s'.status = .in_progress ∧
                ∀ q', q' ≠ qid → lookupAssoc s'.answers q' = lookupAssoc s.answers q')) := by
  intro sys sid qid s a t now hs
  constructor
  · intro hst
    simp [submit_answer, hs, hst]
  · intro hst
    refine ⟨by simp [submit_answer, hs, hst], ?_⟩
    refine ⟨{ s with answers := upsertAssoc s.answers qid ⟨a, now, t⟩ }, ?_, ?_, ?_, ?_⟩
    · simp only [submit_answer, hs, hst]
      simp
      exact lookupAssoc_upsert_self sys.test_sessions sid _
    · exact lookupAssoc_upsert_self s.answers qid _
    · exact hst
    · intro q' hq'
      exact lookupAssoc_upsert_ne s.answers _ hq'

/-- A created session that has already been completed, stored under the
key `"k"`: the concrete input for the witnesses about non-`in_progress`
sessions. -/
def completedSessionK : SessionState := { mkCreatedSession 1 0 with status := .completed }

/-- A test system holding only `completedSessionK`. -/
def completedSys : TestSystem := ⟨[("k", completedSessionK)], []⟩

/-- C8 (witness): submitting to the stored completed session is rejected
and leaves the system unchanged. -/
theorem submit_answer_guard_and_upsert_witness :
    lookupAssoc completedSys.test_sessions "k" = some completedSessionK ∧
      completedSessionK.status ≠ .in_progress ∧
      submit_answer completedSys "k" "ss_q1" (.aInt 1) none 5 = (false, completedSys) := by
  have hl : lookupAssoc completedSys.test_sessions "k" = some completedSessionK := by
    simp [completedSys, lookupAssoc]
  have hst : completedSessionK.status ≠ .in_progress := by
    simp [completedSessionK, mkCreatedSession]
  exact ⟨hl, hst,
    (submit_answer_guard_and_upsert completedSys "k" "ss_q1" completedSessionK
      (.aInt 1) none 5 hl).1 hst⟩

/-- C10 (claim): `complete_test` checks only that the session id exists —
an already-completed session completes again without error, its results are
recomputed from the current clock and flag list, the stored record is
overwritten and the status stays `completed`. -/
theorem complete_test_repeatable_overwrites :
    ∀ (sys : TestSystem) (sid : String) (s : SessionState) (now : ℚ),
      lookupAssoc sys.test_sessions sid = some s →
      s.status = .completed →
      ∃ sys' : TestSystem,
        complete_test sys sid now = .ok (compute_results sid s now, sys') ∧
          lookupAssoc sys'.test_sessions sid
            = some { s with status := .completed, results := some (compute_results sid s now) } ∧
          lookupAssoc sys'.test_results sid = some (compute_results sid s now) := by
  intro sys sid s now hs _hc
  refine
    ⟨{ test_sessions :=
          upsertAssoc sys.test_sessions sid
            { s with status := .completed, results := some (compute_results sid s now) }
       test_results := upsertAssoc sys.test_results sid (compute_results sid s now) },
      ?_, ?_, ?_⟩
  · simp [complete_test, hs]
  · exact lookupAssoc_upsert_self sys.test_sessions sid _
  · exact lookupAssoc_upsert_self sys.test_results sid _

/-- C10 (witness): the double-completion theorem applied to the stored
completed session, re-completed at a later clock. -/
theorem complete_test_repeatable_overwrites_witness :
    lookupAssoc completedSys.test_sessions "k" = some completedSessionK ∧
      completedSessionK.status = .completed ∧
      ∃ sys' : TestSystem,
        complete_test completedSys "k" 60 = .ok (compute_results "k" completedSessionK 60, sys') ∧
          lookupAssoc sys'.test_sessions "k"
            = some { completedSessionK with
                      status := .completed
                      results := some (compute_results "k" completedSessionK 60) } ∧
          lookupAssoc sys'.test_results "k" = some (compute_results "k" completedSessionK 60) := by
  have hl : lookupAssoc completedSys.test_sessions "k" = some completedSessionK := by
    simp [completedSys, lookupAssoc]
  have hst : completedSessionK.status = .completed := by
    simp [completedSessionK, mkCreatedSession]
  exact ⟨hl, hst, complete_test_repeatable_overwrites completedSys "k" completedSessionK 60 hl hst⟩

/-- A created session after arbitrary answer submissions and flagging: only
the `answers` and `cheating_flags` fields can have changed (these are the
only fields `submit_answer` and `flag_cheating_attempt` touch). -/
def evolvedSession (cid : Int) (t0 : ℚ) (ans : List (String × AnswerData))
    (flags : List CheatFlag) : SessionState :=
  { mkCreatedSession cid t0 with answers := ans, cheating_flags := flags }

/-- C9 (amended claim): every session produced by `create_test_session` has
an empty technical question list, so at completion the technical subscore
is `max(0, 0 - penalties) = 0` and the reported overall score is
`round2(final_soft / 2)` — which cannot exceed 50 provided the raw
soft-skill subscore is at most 100 (scale answers above the question
maximum break that proviso). -/
theorem created_session_scoring_shape :
    ∀ (cid : Int) (t0 : ℚ) (ans : List (String × AnswerData)) (flags : List CheatFlag)
      (sid : String) (now : ℚ),
      (mkCreatedSession cid t0).technical_questions = [] ∧
      score_technical (evolvedSession cid t0 ans flags) = 0 ∧
      (compute_results sid (evolvedSession cid t0 ans flags) now).technical_score = 0 ∧
      (compute_results sid (evolvedSession cid t0 ans flags) now).overall_score
        = pyRound2 (max 0 (score_soft_skills (evolvedSession cid t0 ans flags)
            - time_penalty_of (evolvedSession cid t0 ans flags) now
            - cheating_penalty_of (evolvedSession cid t0 ans flags)) / 2) ∧
      (score_soft_skills (evolvedSession cid t0 ans flags) ≤ 100 →
        (compute_results sid (evolvedSession cid t0 ans flags) now).overall_score ≤ 50) := by
  intro cid t0 ans flags sid now
  have htech : score_technical (evolvedSession cid t0 ans flags) = 0 := by
    simp [score_technical, evolvedSession, mkCreatedSession]
  have htp : 0 ≤ time_penalty_of (evolvedSession cid t0 ans flags) now := by
    unfold time_penalty_of
    split_ifs with h
    · exact le_min (by nlinarith) (by norm_num)
    · norm_num
  have hcp : 0 ≤ cheating_penalty_of (evolvedSession cid t0 ans flags) := by
    unfold cheating_penalty_of
    exact le_min (by positivity) (by norm_num)
  have hmax0 :
      max 0 (score_technical (evolvedSession cid t0 ans flags)
          - time_penalty_of (evolvedSession cid t0 ans flags) now
          - cheating_penalty_of (evolvedSession cid t0 ans flags)) = 0 := by
    rw [htech]
    exact max_eq_left (by linarith)
  refine ⟨rfl, htech, ?_, ?_, ?_⟩
  · simp only [compute_results]
    rw [hmax0]
    norm_num [pyRound2, pyRoundInt]
  · simp only [compute_results]
    rw [hmax0, add_zero]
  · intro hsoft
    simp only [compute_results]
    rw [hmax0, add_zero]
    have hfs :
        max 0 (score_soft_skills (evolvedSession cid t0 ans flags)
            - time_penalty_of (evolvedSession cid t0 ans flags) now
            - cheating_penalty_of (evolvedSession cid t0 ans flags)) ≤ 100 := by
      apply max_le
      · norm_num
      · linarith
    exact pyRound2_le (n := 5000) (by norm_num) (by linarith)

/-- C9 (witness): the scoring-shape theorem applied to a freshly created,
untouched session completed immediately: the soft subscore is 0 ≤ 100 and
the overall score is 0 ≤ 50. -/
theorem created_session_scoring_shape_witness :
    score_soft_skills (evolvedSession 1 0 [] []) ≤ 100 ∧
      (compute_results "s" (evolvedSession 1 0 [] []) 0).overall_score ≤ 50 := by
  have hsoft : score_soft_skills (evolvedSession 1 0 [] []) = 0 := by
    simp [score_soft_skills, evolvedSession, mkCreatedSession, SOFT_SKILL_QUESTIONS,
      lookupAssoc]
  exact ⟨by rw [hsoft]; norm_num,
    (created_session_scoring_shape 1 0 [] [] "s" 0).2.2.2.2 (by rw [hsoft]; norm_num)⟩

/-- C9 (counterexample): in a freshly created session, answering the scale
question `ss_q4` (range 1–10, weight 0.8) with the out-of-range value 100
and completing immediately yields a soft subscore of 1000 and an overall
score of 500 — the overall score is not bounded by 50. -/
theorem overall_score_can_exceed_50 :
    (complete_test ⟨[("s", over50Session)], []⟩ "s" 0).map (fun p => p.1.overall_score)
        = .ok 500 ∧ ¬((500 : ℚ) ≤ 50) := by
  constructor
  · have hsoft : score_soft_skills over50Session = 1000 := by
      simp [score_soft_skills, over50Session, mkCreatedSession, SOFT_SKILL_QUESTIONS,
        lookupAssoc, scaleAnswerValue]
      norm_num
    have htech : score_technical over50Session = 0 := by
      simp [score_technical, over50Session, mkCreatedSession]
    have htp : time_penalty_of over50Session 0 = 0 := by
      have hstart : over50Session.start_time = 0 := rfl
      have hlimit : over50Session.time_limit_minutes = 45 := rfl
      simp [time_penalty_of, time_taken_of, hstart, hlimit]
    have hcp : cheating_penalty_of over50Session = 0 := by
      have hflags : over50Session.cheating_flags = [] := rfl
      rw [cheating_penalty_of, hflags]
      norm_num
    have hov : (compute_results "s" over50Session 0).overall_score = 500 := by
      simp only [compute_results]
      rw [hsoft, htech, htp, hcp]
      rw [show max (0 : ℚ) (1000 - 0 - 0) = 1000 by norm_num [max_eq_right],
        show max (0 : ℚ) (0 - 0 - 0) = 0 by norm_num]
      norm_num [pyRound2, pyRoundInt]
    simp [complete_test, lookupAssoc, Except.map, hov]
  · norm_num

/-- Clamping after the two-decimal rounding agrees with rounding after the
clamp whenever the raw score is at most 100 (the case for `_mock_score`,
whose raw sum never exceeds 70 + 20 + 10). -/
theorem min_pyRound2_100 {x : ℚ} (h : x ≤ 100) :
    min (pyRound2 x) 100 = pyRound2 (min x 100) := by
  rw [min_eq_left h, min_eq_left (pyRound2_le (n := 10000) (by norm_num) h)]

/-- C5 (claim): `_mock_score` returns the flat 50.0 when the job names no
required skills; otherwise it is the skill-ratio × 70 formula plus the
experience bonus (20 / 10) and the activity bonus (10 / 5), clamped to 100
and rounded to two decimals (clamping before or after the rounding agree
here since the raw sum never exceeds 100); the spec's scenario evaluates
to exactly 60.0. -/
theorem mock_score_spec_equivalence :
    (∀ (c : UICandidate) (j : JobRequirements), mock_score c j = mock_score_spec c j) ∧
      (∀ (c : UICandidate) (j : JobRequirements), j.technical = [] → mock_score c j = 50) ∧
      mock_score ⟨["Python", "Flask", "Docker"], 5, 60⟩ ⟨["Python", "Django"], 3⟩ = 60 := by
  refine ⟨?_, ?_, ?_⟩
  · intro c j
    simp only [mock_score, mock_score_spec]
    by_cases hrs : ((j.technical.map strToLower).toFinset : Finset String) = ∅
    · rw [if_pos hrs, if_pos hrs]
    · rw [if_neg hrs, if_neg hrs]
      have hrsne : ((j.technical.map strToLower).toFinset : Finset String).Nonempty :=
        Finset.nonempty_iff_ne_empty.mpr hrs
      have hcard : 0 < (((j.technical.map strToLower).toFinset : Finset String).card : ℚ) := by
        exact_mod_cast Finset.card_pos.mpr hrsne
      have hratio :
          (((c.skills.map strToLower).toFinset ∩ (j.technical.map strToLower).toFinset).card : ℚ)
              / (((j.technical.map strToLower).toFinset : Finset String).card : ℚ) ≤ 1 := by
        rw [div_le_one hcard]
        exact_mod_cast Finset.card_le_card Finset.inter_subset_right
      have heb :
          (if j.experience_years ≤ c.years_experience then (20 : ℚ)
           else if j.experience_years * (7 / 10) ≤ c.years_experience then 10 else 0) ≤ 20 := by
        split_ifs <;> norm_num
      have hab :
          (if (100 : ℚ) < c.github_contributions then (10 : ℚ)
           else if (50 : ℚ) < c.github_contributions then 5 else 0) ≤ 10 := by
        split_ifs <;> norm_num
      exact min_pyRound2_100 (by nlinarith)
  · intro c j hj
    simp [mock_score, hj]
  · have h3 : ((["Python", "Django"].map strToLower).toFinset : Finset String) ≠ ∅ := by
      decide
    have h1 : (((["Python", "Flask", "Docker"].map strToLower).toFinset
        ∩ (["Python", "Django"].map strToLower).toFinset : Finset String)).card = 1 := by
      decide
    have h2 : ((["Python", "Django"].map strToLower).toFinset : Finset String).card = 2 := by
      decide
    simp only [mock_score]
    rw [if_neg h3, h1, h2]
    norm_num [pyRound2, pyRoundInt]

/-- C5 (witness): the no-required-skills branch applied to a concrete
candidate and an empty-skill job: the score is the flat 50. -/
theorem mock_score_spec_equivalence_witness :
    (⟨[], 3⟩ : JobRequirements).technical = [] ∧
      mock_score ⟨["python"], 5, 60⟩ ⟨[], 3⟩ = 50 :=
  ⟨rfl, mock_score_spec_equivalence.2.1 ⟨["python"], 5, 60⟩ ⟨[], 3⟩ rfl⟩

/-- On an API that always answers 500, one pass of the page loop consumes
one unit of fuel and one request but leaves the cursor, `has_next` flag and
page counter untouched, so the loop spins until the fuel is gone. -/
theorem langLoop_500_spins (q : String) :
    ∀ (fuel : ℕ) (st : SearchState),
      langLoopF api_always_500 q 5 fuel st none true 0
        = .outOfFuel { st with trace := st.trace ++ List.replicate fuel ⟨q, none⟩ } := by
  intro fuel
  induction fuel with
  | zero => intro st; simp [langLoopF]
  | succ n ih =>
    intro st
    have hcond : True ∧ 0 < maxPagesFor 5 := ⟨trivial, by decide⟩
    simp only [langLoopF]
    rw [if_pos hcond]
    simp only [api_always_500]
    norm_num
    rw [ih]
    simp [List.replicate_succ]

/-- C3 (code_bug): for `target_count = 5` the claimed request bound is
`max(1, min(3, ceil(5/5))) = 1`, but against an API that persistently
answers 500 the search issues one page request per unit of fuel and never
terminates — the bare `continue` re-enters the `while` loop with the page
counter, cursor and `has_next` flag unchanged. -/
theorem search_persistent_non200_never_terminates :
    maxPagesFor 5 = 1 ∧
      ∀ fuel : ℕ,
        search_github_users api_always_500 ["python"] 3 10 5 fuel
          = .outOfFuel ⟨[], List.replicate fuel ⟨build_search_query 3 10 "python", none⟩⟩ := by
  refine ⟨by decide, ?_⟩
  intro fuel
  simp only [search_github_users, langListOf]
  norm_num
  simp only [searchLangsF]
  rw [langLoop_500_spins]
  simp

/-- C6 (code_bug): a 403 on the very first page request aborts the whole
search at once — one request issued, the second language never queried —
while a 500 does not raise but is also not skipped: the next request
repeats the identical query and cursor instead of moving to the next
page/token. -/
theorem search_auth_abort_and_non200_retry :
    search_github_users api_always_403 ["python", "go"] 3 10 5 9
        = .authError ⟨[], [⟨build_search_query 3 10 "python", none⟩]⟩ ∧
      search_github_users api_one_500_then_empty ["python"] 3 10 5 9
        = .ok ⟨[], [⟨build_search_query 3 10 "python", none⟩,
                    ⟨build_search_query 3 10 "python", none⟩]⟩ := by
  constructor
  · decide
  · decide

/-- C4 (amended claim): the reported total of `score_user` is the component
sum clamped to `[0, 100]` **and then rounded to one decimal**; it therefore
always lies in `[0, 100]`; the skill component equals the claimed
intersection-ratio formula and is exactly 0 when the job specifies no
languages or topics. -/
theorem score_user_total_clamped_rounded_bounds :
    ∀ (now : ℤ) (u : UserNode) (jd : JDSpec),
      (score_user now u jd).total_score
        = pyRound1R (min (max (skill_component u jd + activity_component now u
            + quality_component u + completeness_component u) 0) 100) ∧
      0 ≤ (score_user now u jd).total_score ∧
      (score_user now u jd).total_score ≤ 100 ∧
      (0 < jd.languages.toFinset.card + jd.topics.toFinset.card →
        skill_component u jd
          = (((jd.languages.toFinset ∩ userLanguages u).card
              + (jd.topics.toFinset ∩ userTopics u).card : ℕ) : ℝ)
            / ((jd.languages.toFinset.card + jd.topics.toFinset.card : ℕ) : ℝ) * 60) ∧
      (jd.languages.toFinset.card + jd.topics.toFinset.card = 0 →
        skill_component u jd = 0) := by
  intro now u jd
  have htotal : (score_user now u jd).total_score
      = pyRound1R (min (max (skill_component u jd + activity_component now u
          + quality_component u + completeness_component u) 0) 100) := rfl
  have h0 : (0 : ℝ) ≤ min (max (skill_component u jd + activity_component now u
      + quality_component u + completeness_component u) 0) 100 :=
    le_min (le_max_right _ _) (by norm_num)
  have h100 : min (max (skill_component u jd + activity_component now u
      + quality_component u + completeness_component u) 0) 100 ≤ 100 :=
    min_le_right _ _
  refine ⟨htotal, ?_, ?_, ?_, ?_⟩
  · rw [htotal]
    have hz : ((0 : ℤ) : ℝ) / 10 ≤ min (max (skill_component u jd + activity_component now u
        + quality_component u + completeness_component u) 0) 100 := by
      rw [show ((0 : ℤ) : ℝ) / 10 = 0 by norm_num]
      exact h0
    have := le_pyRound1R hz
    simpa using this
  · rw [htotal]
    have := pyRound1R_le (x := min (max (skill_component u jd + activity_component now u
      + quality_component u + completeness_component u) 0) 100) (n := 1000) (by norm_num [h100])
    calc pyRound1R _ ≤ ((1000 : ℤ) : ℝ) / 10 := this
      _ = 100 := by norm_num
  · intro hpos
    simp only [skill_component]
    rw [if_pos hpos]
    try push_cast
    try ring
  · intro h0'
    simp only [skill_component]
    rw [if_neg (by omega)]

/-- C4 (witness): the formula conjuncts applied at concrete inputs — a
one-language job gives the ratio formula, an empty job gives skill 0. -/
theorem score_user_total_clamped_rounded_bounds_witness :
    0 < pythonJD.languages.toFinset.card + pythonJD.topics.toFinset.card ∧
      skill_component (blankUser "w") pythonJD
        = (((pythonJD.languages.toFinset ∩ userLanguages (blankUser "w")).card
            + (pythonJD.topics.toFinset ∩ userTopics (blankUser "w")).card : ℕ) : ℝ)
          / ((pythonJD.languages.toFinset.card + pythonJD.topics.toFinset.card : ℕ) : ℝ) * 60 ∧
      ((⟨[], []⟩ : JDSpec).languages.toFinset.card + (⟨[], []⟩ : JDSpec).topics.toFinset.card = 0
        ∧ skill_component (blankUser "w") ⟨[], []⟩ = 0) :=
  ⟨by decide,
    (score_user_total_clamped_rounded_bounds 0 (blankUser "w") pythonJD).2.2.2.1 (by decide),
    by decide,
    (score_user_total_clamped_rounded_bounds 0 (blankUser "w") ⟨[], []⟩).2.2.2.2 (by decide)⟩

/-! ## Component evaluations at the concrete discovery inputs -/

theorem activity_component_no_updates {u : UserNode} (h1 : totalContributions u = 0)
    (h2 : mostRecentUpdate u = none) (now : ℤ) : activity_component now u = 0 := by
  simp only [activity_component, h1, h2, Nat.cast_zero, zero_add, Real.log_one, zero_div]
  rw [min_eq_left (by norm_num : (0 : ℝ) ≤ 1)]
  ring

theorem quality_component_zero {u : UserNode} (h1 : maxRepoStars u = 0)
    (h2 : u.followers = 0) : quality_component u = 0 := by
  simp only [quality_component, h1, h2, Nat.add_zero, Nat.cast_zero, zero_add,
    Real.log_one, zero_div]
  rw [min_eq_left (by norm_num : (0 : ℝ) ≤ 1)]
  ring

theorem completeness_component_zero {u : UserNode} (h1 : u.name = "")
    (h2 : u.location = "") : completeness_component u = 0 := by
  simp [completeness_component, h1, h2]

theorem skill_component_onePython :
    skill_component onePythonRepoUser sevenLangJD = 60 / 7 := by
  have h1 : (sevenLangJD.languages.toFinset ∩ userLanguages onePythonRepoUser).card = 1 := by
    decide
  have h2 : (sevenLangJD.topics.toFinset ∩ userTopics onePythonRepoUser).card = 0 := by
    decide
  have h3 : sevenLangJD.languages.toFinset.card = 7 := by decide
  have h4 : sevenLangJD.topics.toFinset.card = 0 := by decide
  simp only [skill_component, h1, h2, h3, h4]
  norm_num

theorem skill_component_blank (login : String) :
    skill_component (blankUser login) pythonJD = 0 := by
  have h1 : (pythonJD.languages.toFinset ∩ userLanguages (blankUser login)).card = 0 := by
    have : userLanguages (blankUser login) = ∅ := rfl
    simp [this]
  have h2 : (pythonJD.topics.toFinset ∩ userTopics (blankUser login)).card = 0 := by
    have : userTopics (blankUser login) = ∅ := rfl
    simp [this]
  have h3 : pythonJD.languages.toFinset.card = 1 := by decide
  have h4 : pythonJD.topics.toFinset.card = 0 := by decide
  simp only [skill_component, h1, h2, h3, h4]
  norm_num

theorem pyRound1R_zero : pyRound1R 0 = 0 := by
  norm_num [pyRound1R, pyRoundInt]

theorem pyRound1R_60_7 : pyRound1R (60 / 7 : ℝ) = 43 / 5 := by
  have hx : (60 / 7 : ℝ) * 10 = ((600 / 7 : ℚ) : ℝ) := by norm_num
  have hfl : ⌊((600 / 7 : ℚ) : ℝ)⌋ = 85 := by
    rw [Rat.floor_cast]
    norm_num
  have hno : ¬(((600 / 7 : ℚ) : ℝ) - ((85 : ℤ) : ℝ) < 1 / 2) := by
    push_cast
    norm_num
  have hyes : (1 : ℝ) / 2 < ((600 / 7 : ℚ) : ℝ) - ((85 : ℤ) : ℝ) := by
    push_cast
    norm_num
  simp only [pyRound1R, pyRoundInt, hx, hfl]
  rw [if_neg hno, if_pos hyes]
  push_cast
  norm_num

/-- C4 (counterexample): a user whose single repository matches one of the
job's seven languages has a clamped component sum of exactly 60/7, yet the
reported total is 8.6 — the one-decimal rounding makes the returned total
differ from the clamped sum the claim equates it with. -/
theorem score_user_total_rounding_counterexample :
    (score_user 0 onePythonRepoUser sevenLangJD).total_score = 43 / 5 ∧
      min (max (skill_component onePythonRepoUser sevenLangJD
          + activity_component 0 onePythonRepoUser + quality_component onePythonRepoUser
          + completeness_component onePythonRepoUser) 0) 100 = 60 / 7 ∧
      (43 / 5 : ℝ) ≠ 60 / 7 := by
  have hs : skill_component onePythonRepoUser sevenLangJD = 60 / 7 := skill_component_onePython
  have ha : activity_component 0 onePythonRepoUser = 0 :=
    activity_component_no_updates (u := onePythonRepoUser) rfl rfl 0
  have hq : quality_component onePythonRepoUser = 0 :=
    quality_component_zero (u := onePythonRepoUser) rfl rfl
  have hc : completeness_component onePythonRepoUser = 0 :=
    completeness_component_zero (u := onePythonRepoUser) rfl rfl
  have hclamp : min (max (skill_component onePythonRepoUser sevenLangJD
      + activity_component 0 onePythonRepoUser + quality_component onePythonRepoUser
      + completeness_component onePythonRepoUser) 0) 100 = 60 / 7 := by
    rw [hs, ha, hq, hc, show (60 / 7 : ℝ) + 0 + 0 + 0 = 60 / 7 by ring,
      max_eq_left (by norm_num : (0 : ℝ) ≤ 60 / 7), min_eq_left (by norm_num : (60 / 7 : ℝ) ≤ 100)]
  refine ⟨?_, hclamp, by norm_num⟩
  calc (score_user 0 onePythonRepoUser sevenLangJD).total_score
      = pyRound1R (min (max (skill_component onePythonRepoUser sevenLangJD
          + activity_component 0 onePythonRepoUser + quality_component onePythonRepoUser
          + completeness_component onePythonRepoUser) 0) 100) := rfl
    _ = pyRound1R (60 / 7) := by rw [hclamp]
    _ = 43 / 5 := pyRound1R_60_7

/-- The reported total of a blank user against the one-language job is 0. -/
theorem blank_user_score_zero (login : String) :
    (score_user 0 (blankUser login) pythonJD).total_score = 0 := by
  have hs : skill_component (blankUser login) pythonJD = 0 := skill_component_blank login
  have ha : activity_component 0 (blankUser login) = 0 :=
    activity_component_no_updates (u := blankUser login) rfl rfl 0
  have hq : quality_component (blankUser login) = 0 :=
    quality_component_zero (u := blankUser login) rfl rfl
  have hc : completeness_component (blankUser login) = 0 :=
    completeness_component_zero (u := blankUser login) rfl rfl
  calc (score_user 0 (blankUser login) pythonJD).total_score
      = pyRound1R (min (max (skill_component (blankUser login) pythonJD
          + activity_component 0 (blankUser login) + quality_component (blankUser login)
          + completeness_component (blankUser login)) 0) 100) := rfl
    _ = pyRound1R 0 := by
        rw [hs, ha, hq, hc, show (0 : ℝ) + 0 + 0 + 0 = 0 by ring,
          max_self, min_eq_left (by norm_num : (0 : ℝ) ≤ 100)]
    _ = 0 := pyRound1R_zero

/-- C2 (amended claim): the ranked discovery output is sorted descending by
total score and is a truncation of a permutation of the scored input — but
ties are left in first-seen input order by the stable sort; there is no
identifier-based tie-break. -/
theorem discovery_output_sorted_desc :
    ∀ (now : ℤ) (jd : JDSpec) (users : List UserNode) (k : ℕ),
      List.Sorted candGe (rank_candidates now jd users k) ∧
        (sortByScoreDesc (users.map (toCandidate now jd))).Perm
          (users.map (toCandidate now jd)) := by
  intro now jd users k
  constructor
  · exact (List.sorted_insertionSort candGe _).sublist (List.take_sublist _ _)
  · exact List.perm_insertionSort candGe _

/-- C2 (counterexample): two profiles with equal scores, fetched with login
`"b"` before login `"a"`, are ranked `["b", "a"]` — the tie is left in
input order, not broken by ascending candidate identifier (which would put
`"a"` first). -/
theorem discovery_tie_order_counterexample :
    (rank_candidates 0 pythonJD [blankUser "b", blankUser "a"] 20).map Candidate.login
        = ["b", "a"] ∧
      (score_user 0 (blankUser "b") pythonJD).total_score
        = (score_user 0 (blankUser "a") pythonJD).total_score ∧
      strLeP "a" "b" ∧ "a" ≠ "b" := by
  have hb := blank_user_score_zero "b"
  have ha := blank_user_score_zero "a"
  have hscoreb : (toCandidate 0 pythonJD (blankUser "b")).score = 0 := hb
  have hscorea : (toCandidate 0 pythonJD (blankUser "a")).score = 0 := ha
  have hge : candGe (toCandidate 0 pythonJD (blankUser "b"))
      (toCandidate 0 pythonJD (blankUser "a")) := by
    unfold candGe
    rw [hscoreb, hscorea]
  refine ⟨?_, hb.trans ha.symm, by decide, by decide⟩
  show (List.take 20 (List.insertionSort candGe
      [toCandidate 0 pythonJD (blankUser "b"), toCandidate 0 pythonJD (blankUser "a")])).map
        Candidate.login = ["b", "a"]
  simp only [List.insertionSort, List.orderedInsert]
  rw [if_pos hge]
  simp [toCandidate, blankUser]
